import Mathlib

set_option maxRecDepth 4000
set_option maxHeartbeats 1000000

/-! Verification of the interrupt-driven SPI receive framer and the
chip-select-guarded transfer operations of AVR_SPI_with_interrupts
(src/src/AVR_SPI_with_interrupts.cpp, src/include/AVR_SPI_char_defines.h).

Byte values are naturals below 256 (SPDR is uint8_t).  The arrays
SPI_buffer and SPI_data are modelled as total functions from the index
(offset from the array base) to the stored byte, so that an out-of-bounds
store of the C code remains visible as a write at an index at or beyond
DATA_LENGTH.  The field isrWriteLog is ghost instrumentation recording the
index of every store that the interrupt handler performs; no code reads it. -/

/-- DATA_END_CHAR from AVR_SPI_char_defines.h line 13 (0x0D, carriage return). -/
def DATA_END_CHAR : Nat := 0x0D

/-- DATA_LENGTH from AVR_SPI_char_defines.h line 14 (50 + 1). -/
def DATA_LENGTH : Nat := 50 + 1

/-- DEFAULT_SS_CONTROL from AVR_SPI_with_interrupts.h line 54. -/
def DEFAULT_SS_CONTROL : Nat := 1

/-- INVERTED_SS_CONTROL from AVR_SPI_with_interrupts.h line 53. -/
def INVERTED_SS_CONTROL : Nat := 0

/-- The interrupt/foreground shared state of the receive path
(cpp lines 78-83): SPI_buffer, SPI_data, dataIndex, dataReceived,
receivedBytes, plus a ghost log of the indices the ISR stores to. -/
@[ext]
structure SpiState where
  buffer : Nat → Nat
  data : Nat → Nat
  dataIndex : Nat
  dataReceived : Bool
  receivedBytes : Nat
  isrWriteLog : List Nat

/-- The initial all-zero state: both arrays are zero-initialised
(cpp lines 78-83). -/
def initState : SpiState :=
  { buffer := fun _ => 0, data := fun _ => 0, dataIndex := 0,
    dataReceived := false, receivedBytes := 0, isrWriteLog := [] }

/-- One invocation of ISR(SPI_STC_vect) (cpp lines 86-102) on the received
byte b (the value read from SPDR).  The handler first stores the byte at
SPI_buffer[dataIndex]; comparing SPI_buffer[dataIndex] with DATA_END_CHAR
afterwards compares the value just stored, i.e. b. -/
def isrStep (s : SpiState) (b : Nat) : SpiState :=
  let buf := fun i => if i = s.dataIndex then b else s.buffer i
  if b ≠ DATA_END_CHAR then
    { s with buffer := buf, dataIndex := s.dataIndex + 1,
             receivedBytes := s.receivedBytes + 1,
             isrWriteLog := s.dataIndex :: s.isrWriteLog }
  else
    { s with buffer := buf, dataReceived := true, dataIndex := 0,
             isrWriteLog := s.dataIndex :: s.isrWriteLog }

/-- Delivering a sequence of bytes to the ISR, one invocation per byte. -/
def runISR (s : SpiState) (bs : List Nat) : SpiState :=
  bs.foldl isrStep s

/-- flushBuffer(SPI_data, receivedBytes) as called at cpp line 139:
sets SPI_data[0 .. receivedBytes) to zero (cpp lines 110-114). -/
def flushData (s : SpiState) : SpiState :=
  { s with data := fun i => if i < s.receivedBytes then 0 else s.data i }

/-- One store of the copy-loop body SPI_data[i] = SPI_buffer[i]
(cpp line 145). -/
def storeData (s : SpiState) (i v : Nat) : SpiState :=
  { s with data := fun j => if j = i then v else s.data j }

/-- The copy loop of SPI_readAll (cpp lines 143-147), scanning from index i:
while SPI_buffer[i] is not DATA_END_CHAR, copy it into SPI_data[i].  The C
loop has no bound; once the scan has consumed DATA_LENGTH reads without a
terminator it dereferences past the array, which is undefined behaviour and
is modelled by none (the fuel argument counts the remaining in-bounds
reads). -/
def copyFrom : Nat → SpiState → Nat → Option SpiState
  | 0, _, _ => none
  | fuel + 1, s, i =>
    if s.buffer i = DATA_END_CHAR then some s
    else copyFrom fuel (storeData s i (s.buffer i)) (i + 1)

/-- The tail of SPI_readAll after the copy loop (cpp lines 150-154):
zero SPI_buffer[0 .. receivedBytes), clear dataReceived, clear
receivedBytes. -/
def finishSwap (s : SpiState) : SpiState :=
  { s with buffer := fun i => if i < s.receivedBytes then 0 else s.buffer i,
           dataReceived := false, receivedBytes := 0 }

/-- SPI_readAll (cpp lines 134-161): if dataReceived, flush SPI_data over
the first receivedBytes entries, copy the working buffer up to the first
terminator into SPI_data, zero the first receivedBytes entries of the
working buffer, clear the flag and the counter, and return true; otherwise
return false.  none models the undefined behaviour of a terminator-less
scan leaving the array. -/
def SPI_readAll (s : SpiState) : Option (Bool × SpiState) :=
  if s.dataReceived then
    match copyFrom DATA_LENGTH (flushData s) 0 with
    | none => none
    | some s2 => some (true, finishSwap s2)
  else some (false, s)

/-- Foreground/interrupt interleavings: an action is either one ISR
invocation on a received byte or one foreground SPI_readAll call. -/
inductive SpiAction where
  | recv (b : Nat)
  | poll
deriving DecidableEq

/-- Effect of one action on the shared state. -/
def actStep (s : SpiState) : SpiAction → Option SpiState
  | .recv b => some (isrStep s b)
  | .poll =>
    match SPI_readAll s with
    | none => none
    | some (_, s2) => some s2

/-- Running a list of actions from a given state. -/
def runActsFrom : SpiState → List SpiAction → Option SpiState
  | s, [] => some s
  | s, a :: rest =>
    match actStep s a with
    | none => none
    | some s2 => runActsFrom s2 rest

/-- Running a list of actions from the initial state. -/
def runActs (acts : List SpiAction) : Option SpiState :=
  runActsFrom initState acts

/-- Modelled from the spec words for the Byte Count: the abstract counter
counts the non-terminator bytes received since the last successful swap;
the flag component mirrors the Ready Flag. -/
def specStep : Nat × Bool → SpiAction → Nat × Bool
  | (c, r), .recv b => if b = DATA_END_CHAR then (c, true) else (c + 1, r)
  | (c, r), .poll => if r then (0, false) else (c, r)

/-- Abstract counter and flag after a list of actions. -/
def specRun (acts : List SpiAction) : Nat × Bool :=
  acts.foldl specStep (0, false)

/-- Modelled from the claim words for C8: the bytes of the current
message, i.e. the delivered bytes after the last terminator. -/
def bytesSinceLastTerminator (bs : List Nat) : List Nat :=
  ((bs.reverse).takeWhile (fun b => decide (b ≠ DATA_END_CHAR))).reverse

/-- A ready state holding the framed message AB: the working buffer is
[65, 66, 13, 0, ...], receivedBytes = 2, dataReceived = true. -/
def tornStart : SpiState := runISR initState [65, 66, DATA_END_CHAR]

/-- SPI_readAll preempted right after its first copy-loop iteration:
the flush (cpp line 139) and the store SPI_data[0] = SPI_buffer[0]
(cpp line 145) have executed, the loop is about to continue at i = 1. -/
def tornMid : SpiState :=
  storeData (flushData tornStart) 0 ((flushData tornStart).buffer 0)

/-- While the foreground is preempted, the ISR delivers a second message
CD followed by the terminator. -/
def tornAfterIsr : SpiState := runISR tornMid [67, 68, DATA_END_CHAR]

/-- The foreground resumes: the copy loop continues at i = 1 (one unit of
fuel was consumed by the first iteration), then the zeroing loop and the
flag/counter clears run, reading the now-updated receivedBytes. -/
def tornFinal : Option SpiState := (copyFrom 50 tornAfterIsr 1).map finishSwap

/-- One iteration of the accumulator update of hexArrayToUint64_t
(cpp line 286): combinedHex = (combinedHex << 8) | array[i], in uint64
arithmetic. -/
def hexCombineStep (acc b : Nat) : Nat := ((acc <<< 8) ||| b) % 2 ^ 64

/-- hexArrayToUint64_t (cpp lines 281-289) on the list of array elements. -/
def hexArrayToUint64_t (arr : List Nat) : Nat :=
  arr.foldl hexCombineStep 0

/-- Modelled from the spec words: the big-endian formula
b0 <<< 8(n-1) ||| b1 <<< 8(n-2) ||| ... ||| b(n-1), for comparison with
hexArrayToUint64_t. -/
def specBigEndianFold : List Nat → Nat
  | [] => 0
  | b :: rest => (b <<< (8 * rest.length)) ||| specBigEndianFold rest

/-- The payload bytes SPI_transmitHex emits (cpp lines 313-314):
(hexNumber >> (i*8)) & 0xFF for i = numBytes-1 down to 0, i.e. most
significant byte first. -/
def SPI_transmitHex_payload (numBytes hexNumber : Nat) : List Nat :=
  (List.range numBytes).reverse.map (fun i => (hexNumber >>> (i * 8)) &&& 0xFF)

/-- Modelled from the C standard library contract of strcmp as called by
SPI_strcmp (cpp lines 124-127); strcmp itself is libc code, not part of
this repository.  A list models the bytes of a NUL-terminated string: a
zero element acts as the NUL, and running off the end of the list is
implicit NUL padding.  The result is the difference of the first
differing bytes, compared as unsigned chars (glibc/avr-libc behaviour),
and 0 when the strings agree up to their NULs. -/
def strcmpBytes : List Nat → List Nat → Int
  | [], [] => 0
  | [], b :: _ => if b = 0 then 0 else -(b : Int)
  | a :: _, [] => if a = 0 then 0 else (a : Int)
  | a :: as, b :: bs =>
    if a = b then (if a = 0 then 0 else strcmpBytes as bs)
    else (a : Int) - (b : Int)

/-- SPI_strcmp (cpp lines 124-127): casts its first argument to a char
pointer and delegates to strcmp. -/
def SPI_strcmp (str1 str2 : List Nat) : Int := strcmpBytes str1 str2

/-- pullHigh (cpp line 203): (*SS_PORTx) | (1 << SS_PORTxn), truncated to
uint8_t.  The shift happens in int width; its low byte is (1 <<< bit) % 256. -/
def pullHighVal (port bit : Nat) : Nat :=
  (port ||| ((1 <<< bit) % 256)) % 256

/-- pullLow (cpp line 204): (*SS_PORTx) & ~(1 << SS_PORTxn), truncated to
uint8_t; for a port value below 256 the complement restricted to the low
byte is 255 ^^^ ((1 <<< bit) % 256). -/
def pullLowVal (port bit : Nat) : Nat :=
  port &&& (255 ^^^ ((1 <<< bit) % 256))

/-- The value written to *SS_PORTx at transmission start (cpp line 207):
(SSmode == DEFAULT_SS_CONTROL) * pullLow + (SSmode == INVERTED_SS_CONTROL) * pullHigh. -/
def ssAssertValue (port bit m : Nat) : Nat :=
  (if m = DEFAULT_SS_CONTROL then 1 else 0) * pullLowVal port bit +
  (if m = INVERTED_SS_CONTROL then 1 else 0) * pullHighVal port bit

/-- The value written to *SS_PORTx at transmission end (cpp line 212):
(SSmode == DEFAULT_SS_CONTROL) * pullHigh + (SSmode == INVERTED_SS_CONTROL) * pullLow. -/
def ssDeassertValue (port bit m : Nat) : Nat :=
  (if m = DEFAULT_SS_CONTROL then 1 else 0) * pullHighVal port bit +
  (if m = INVERTED_SS_CONTROL then 1 else 0) * pullLowVal port bit

/-- Externally visible events of the chip-select-guarded operations:
a store to the SS port register, a byte written to SPDR for transmission,
or a byte read from SPDR. -/
inductive SpiEvent where
  | portWrite (v : Nat)
  | spiByte (v : Nat)
  | spiReadByte
deriving DecidableEq

/-- Event trace of SPI_transmitUint8_t (cpp lines 201-215). -/
def SPI_transmitUint8_t_trace (port bit m d : Nat) : List SpiEvent :=
  [.portWrite (ssAssertValue port bit m), .spiByte d,
   .spiByte DATA_END_CHAR, .portWrite (ssDeassertValue port bit m)]

/-- Event trace of SPI_transmitString (cpp lines 226-245); the while loop
transmits the bytes up to the first NUL of the argument string. -/
def SPI_transmitString_trace (port bit m : Nat) (data : List Nat) : List SpiEvent :=
  .portWrite (ssAssertValue port bit m) ::
    ((data.takeWhile (fun c => decide (c ≠ 0))).map SpiEvent.spiByte ++
     [.spiByte DATA_END_CHAR, .portWrite (ssDeassertValue port bit m)])

/-- Event trace of SPI_receiveUint8_t (cpp lines 256-271). -/
def SPI_receiveUint8_t_trace (port bit m : Nat) : List SpiEvent :=
  [.portWrite (ssAssertValue port bit m), .spiReadByte,
   .portWrite (ssDeassertValue port bit m)]

/-- Event trace of SPI_transmitHex (cpp lines 303-321). -/
def SPI_transmitHex_trace (port bit m numBytes hexNumber : Nat) : List SpiEvent :=
  .portWrite (ssAssertValue port bit m) ::
    ((SPI_transmitHex_payload numBytes hexNumber).map SpiEvent.spiByte ++
     [.spiByte DATA_END_CHAR, .portWrite (ssDeassertValue port bit m)])

/-- Closed form of the state SPI_readAll leaves behind when it returns true
and the first terminator of the Working Buffer sits at index k: SPI_data is
overwritten by the buffer on [0, k), zeroed on the rest of
[0, receivedBytes), untouched beyond; the Working Buffer is zeroed on
[0, receivedBytes) and keeps everything beyond (including a terminator at
receivedBytes or later); the flag and the counter are cleared.  Proved equal
to the result of SPI_readAll below. -/
def swapResult (s : SpiState) (k : Nat) : SpiState :=
  { s with
    data := fun i => if i < k then s.buffer i
                     else if i < s.receivedBytes then 0 else s.data i,
    buffer := fun i => if i < s.receivedBytes then 0 else s.buffer i,
    dataReceived := false, receivedBytes := 0 }

theorem isrStep_dataIndex_not_term (s : SpiState) (b : Nat) (hb : b ≠ DATA_END_CHAR) :
    (isrStep s b).dataIndex = s.dataIndex + 1 := by
  simp [isrStep, hb]

theorem isrStep_receivedBytes_not_term (s : SpiState) (b : Nat) (hb : b ≠ DATA_END_CHAR) :
    (isrStep s b).receivedBytes = s.receivedBytes + 1 := by
  simp [isrStep, hb]

theorem isrStep_dataReceived_not_term (s : SpiState) (b : Nat) (hb : b ≠ DATA_END_CHAR) :
    (isrStep s b).dataReceived = s.dataReceived := by
  simp [isrStep, hb]

theorem isrStep_data (s : SpiState) (b : Nat) :
    (isrStep s b).data = s.data := by
  by_cases hb : b ≠ DATA_END_CHAR <;> simp [isrStep, hb]

theorem isrStep_buffer (s : SpiState) (b : Nat) (i : Nat) :
    (isrStep s b).buffer i = if i = s.dataIndex then b else s.buffer i := by
  by_cases hb : b ≠ DATA_END_CHAR <;> simp [isrStep, hb]

theorem runISR_no_term (S : List Nat) (hS : ∀ b ∈ S, b ≠ DATA_END_CHAR) (s : SpiState) :
    (runISR s S).dataIndex = s.dataIndex + S.length ∧
    (runISR s S).receivedBytes = s.receivedBytes + S.length ∧
    (runISR s S).dataReceived = s.dataReceived ∧
    (runISR s S).data = s.data ∧
    (∀ i, (runISR s S).buffer i =
      if s.dataIndex ≤ i ∧ i < s.dataIndex + S.length
      then S.getD (i - s.dataIndex) 0 else s.buffer i) := by
  induction S generalizing s with
  | nil =>
    refine ⟨by simp [runISR], by simp [runISR], by simp [runISR], by simp [runISR], ?_⟩
    intro i
    simp only [runISR, List.foldl_nil, List.length_nil, Nat.add_zero]
    have : ¬(s.dataIndex ≤ i ∧ i < s.dataIndex) := by omega
    rw [if_neg this]
  | cons b S ih =>
    have hb : b ≠ DATA_END_CHAR := hS b (List.mem_cons_self b S)
    have hrun : runISR s (b :: S) = runISR (isrStep s b) S := by
      simp [runISR]
    obtain ⟨ih1, ih2, ih3, ih4, ih5⟩ :=
      ih (fun x hx => hS x (List.mem_cons_of_mem b hx)) (isrStep s b)
    refine ⟨?_, ?_, ?_, ?_, ?_⟩
    · rw [hrun, ih1, isrStep_dataIndex_not_term s b hb]
      simp only [List.length_cons]; omega
    · rw [hrun, ih2, isrStep_receivedBytes_not_term s b hb]
      simp only [List.length_cons]; omega
    · rw [hrun, ih3, isrStep_dataReceived_not_term s b hb]
    · rw [hrun, ih4, isrStep_data s b]
    · intro i
      rw [hrun, ih5 i, isrStep_dataIndex_not_term s b hb, isrStep_buffer s b i]
      simp only [List.length_cons]
      by_cases hA : s.dataIndex + 1 ≤ i ∧ i < s.dataIndex + 1 + S.length
      · have hB : s.dataIndex ≤ i ∧ i < s.dataIndex + (S.length + 1) := by omega
        rw [if_pos hA, if_pos hB]
        have hi : i - s.dataIndex = (i - (s.dataIndex + 1)) + 1 := by omega
        rw [hi, List.getD_cons_succ]
      · by_cases hC : i = s.dataIndex
        · have hB : s.dataIndex ≤ i ∧ i < s.dataIndex + (S.length + 1) := by omega
          rw [if_neg hA, if_pos hB, if_pos hC, hC]
          simp
        · by_cases hB : s.dataIndex ≤ i ∧ i < s.dataIndex + (S.length + 1)
          · exfalso; omega
          · rw [if_neg hA, if_neg hB, if_neg hC]

/-- C4 counterexample: the claim says that on a terminator byte the handler
only sets the Ready Flag and resets the cursor, the Working Buffer retaining
exactly the bytes written so far, and that on a data byte it only stores the
byte and increments the cursor.  At the concrete reachable state obtained by
delivering byte 88 from the initial state, delivering the terminator CHANGES
the Working Buffer: entry 1 goes from 0 to 0x0D (the terminator is stored at
the cursor).  Moreover a data byte also increments receivedBytes, which the
claimed transition omits. -/
theorem isr_stores_terminator_counterexample :
    ((isrStep (runISR initState [88]) DATA_END_CHAR).buffer 1 = DATA_END_CHAR ∧
     (runISR initState [88]).buffer 1 = 0 ∧ DATA_END_CHAR ≠ 0) ∧
    ((isrStep initState 65).receivedBytes = 1 ∧ initState.receivedBytes = 0) := by
  decide

/-- C4 (amended): each ISR invocation on byte b first stores b at
WorkingBuffer[cursor], leaving every other buffer entry and SPI_data
unchanged; then, if b is the terminator, it sets the Ready Flag and resets
the cursor to 0 with the Byte Count unchanged; otherwise it increments the
cursor and the Byte Count with the Ready Flag unchanged. -/
theorem isr_transition_characterization (s : SpiState) (b : Nat) :
    (isrStep s b).buffer s.dataIndex = b ∧
    (∀ i, i ≠ s.dataIndex → (isrStep s b).buffer i = s.buffer i) ∧
    (isrStep s b).data = s.data ∧
    (b = DATA_END_CHAR →
      (isrStep s b).dataReceived = true ∧ (isrStep s b).dataIndex = 0 ∧
      (isrStep s b).receivedBytes = s.receivedBytes) ∧
    (b ≠ DATA_END_CHAR →
      (isrStep s b).dataIndex = s.dataIndex + 1 ∧
      (isrStep s b).receivedBytes = s.receivedBytes + 1 ∧
      (isrStep s b).dataReceived = s.dataReceived) := by
  by_cases hb : b = DATA_END_CHAR
  · refine ⟨by simp [isrStep, hb], fun i hi => by simp [isrStep, hb, hi],
      isrStep_data s b,
      fun _ => ⟨by simp [isrStep, hb], by simp [isrStep, hb], by simp [isrStep, hb]⟩,
      fun h => absurd hb h⟩
  · refine ⟨by simp [isrStep, hb], fun i hi => by simp [isrStep, hb, hi],
      isrStep_data s b,
      fun h => absurd h hb,
      fun _ => ⟨by simp [isrStep, hb], by simp [isrStep, hb], by simp [isrStep, hb]⟩⟩

/-- C4 witness: the amended transition evaluated at concrete inputs: a data
byte 65 from the initial state, and a terminator from the initial state. -/
theorem isr_transition_characterization_witness :
    (isrStep initState 65).buffer 0 = 65 ∧
    (isrStep initState 65).dataIndex = 1 ∧
    (isrStep initState 65).receivedBytes = 1 ∧
    (isrStep initState DATA_END_CHAR).dataReceived = true ∧
    (isrStep initState DATA_END_CHAR).dataIndex = 0 := by
  refine ⟨(isr_transition_characterization initState 65).1, ?_, ?_, ?_, ?_⟩
  · exact ((isr_transition_characterization initState 65).2.2.2.2 (by decide)).1
  · exact ((isr_transition_characterization initState 65).2.2.2.2 (by decide)).2.1
  · exact ((isr_transition_characterization initState DATA_END_CHAR).2.2.2.1 rfl).1
  · exact ((isr_transition_characterization initState DATA_END_CHAR).2.2.2.1 rfl).2.1

/-- C3: the claim says the Receive Framer never writes at a Working Buffer
index at or beyond Capacity.  The handler (cpp lines 86-102) has no bound
check: feeding 52 non-terminator bytes from the initial state, the 52nd
store targets index 51 = DATA_LENGTH, past the end of the array, and all 52
bytes are counted rather than the excess being discarded. -/
theorem isr_write_out_of_bounds :
    DATA_LENGTH ∈ (runISR initState (List.replicate 52 65)).isrWriteLog ∧
    (runISR initState (List.replicate 52 65)).buffer DATA_LENGTH = 65 ∧
    (runISR initState (List.replicate 52 65)).receivedBytes = 52 := by
  decide

theorem copyFrom_scan (k : Nat) :
    ∀ (s : SpiState) (i fuel : Nat),
      (∀ j, j < k → s.buffer (i + j) ≠ DATA_END_CHAR) →
      s.buffer (i + k) = DATA_END_CHAR → k + 1 ≤ fuel →
      copyFrom fuel s i =
        some { s with data := fun j => if i ≤ j ∧ j < i + k then s.buffer j else s.data j } := by
  induction k with
  | zero =>
    intro s i fuel _ hterm hfuel
    obtain ⟨fuel, rfl⟩ : ∃ f, fuel = f + 1 := ⟨fuel - 1, by omega⟩
    have hb : s.buffer i = DATA_END_CHAR := by rwa [Nat.add_zero] at hterm
    have hfun : s.data = fun j => if i ≤ j ∧ j < i + 0 then s.buffer j else s.data j := by
      funext j
      rw [if_neg (by omega)]
    simp only [copyFrom]
    rw [if_pos hb]
    exact congrArg some (SpiState.ext rfl hfun rfl rfl rfl rfl)
  | succ k ih =>
    intro s i fuel hpre hterm hfuel
    obtain ⟨fuel, rfl⟩ : ∃ f, fuel = f + 1 := ⟨fuel - 1, by omega⟩
    have hb : s.buffer i ≠ DATA_END_CHAR := by
      have h0 := hpre 0 (by omega)
      rwa [Nat.add_zero] at h0
    have hpre2 : ∀ j, j < k →
        (storeData s i (s.buffer i)).buffer (i + 1 + j) ≠ DATA_END_CHAR := by
      intro j hj
      have h2 := hpre (j + 1) (by omega)
      show s.buffer (i + 1 + j) ≠ DATA_END_CHAR
      rwa [show i + (j + 1) = i + 1 + j by omega] at h2
    have hterm2 : (storeData s i (s.buffer i)).buffer (i + 1 + k) = DATA_END_CHAR := by
      show s.buffer (i + 1 + k) = DATA_END_CHAR
      rwa [show i + (k + 1) = i + 1 + k by omega] at hterm
    have hdata : (fun j => if i + 1 ≤ j ∧ j < i + 1 + k
          then (storeData s i (s.buffer i)).buffer j
          else (storeData s i (s.buffer i)).data j) =
        (fun j => if i ≤ j ∧ j < i + (k + 1) then s.buffer j else s.data j) := by
      funext j
      show (if i + 1 ≤ j ∧ j < i + 1 + k then s.buffer j
            else if j = i then s.buffer i else s.data j) =
           (if i ≤ j ∧ j < i + (k + 1) then s.buffer j else s.data j)
      by_cases h1 : i + 1 ≤ j ∧ j < i + 1 + k
      · rw [if_pos h1, if_pos (by omega)]
      · by_cases h2 : j = i
        · rw [if_neg h1, if_pos h2, if_pos (by omega), h2]
        · rw [if_neg h1, if_neg h2, if_neg (by omega)]
    simp only [copyFrom]
    rw [if_neg hb, ih (storeData s i (s.buffer i)) (i + 1) fuel hpre2 hterm2 (by omega)]
    exact congrArg some (SpiState.ext rfl hdata rfl rfl rfl rfl)

theorem copyFrom_preserves (fuel : Nat) :
    ∀ (s : SpiState) (i : Nat) (s2 : SpiState), copyFrom fuel s i = some s2 →
      s2.buffer = s.buffer ∧ s2.dataIndex = s.dataIndex ∧
      s2.dataReceived = s.dataReceived ∧ s2.receivedBytes = s.receivedBytes := by
  induction fuel with
  | zero => intro s i s2 h; simp [copyFrom] at h
  | succ fuel ih =>
    intro s i s2 h
    by_cases hb : s.buffer i = DATA_END_CHAR
    · simp only [copyFrom] at h
      rw [if_pos hb] at h
      obtain rfl : s = s2 := by injection h
      exact ⟨rfl, rfl, rfl, rfl⟩
    · simp only [copyFrom] at h
      rw [if_neg hb] at h
      exact ih (storeData s i (s.buffer i)) (i + 1) s2 h

/-- C2 counterexample: the claim says a successful messageReady() clears ALL
of the Stable Message Buffer before copying the new message in.  After the
message ABCDE is framed and consumed, then the one-byte message X is framed,
the next SPI_readAll only flushes SPI_data[0 .. receivedBytes) = SPI_data[0],
so the stale bytes 66, 67, 68, 69 of the previous message remain in
SPI_data[1..4] next to the one-byte message. -/
theorem readAll_flush_counterexample :
    ((runActs [SpiAction.recv 65, .recv 66, .recv 67, .recv 68, .recv 69,
               .recv DATA_END_CHAR, .poll, .recv 88, .recv DATA_END_CHAR]).map
        (fun s => (s.buffer 0, s.buffer 1, s.dataReceived))) =
      some (88, DATA_END_CHAR, true) ∧
    ((runActs [SpiAction.recv 65, .recv 66, .recv 67, .recv 68, .recv 69,
               .recv DATA_END_CHAR, .poll, .recv 88, .recv DATA_END_CHAR, .poll]).map
        (fun s => (s.data 0, s.data 1, s.data 2, s.data 3, s.data 4))) =
      some (88, 66, 67, 68, 69) ∧ (66 : Nat) ≠ 0 := by
  decide

/-- Helper: full characterisation of a successful SPI_readAll call, shared
by the C1 and C2 developments below. -/
theorem readAll_swap_spec (s : SpiState) (k : Nat)
    (h : s.dataReceived = true)
    (hterm : s.buffer k = DATA_END_CHAR)
    (hpre : ∀ j, j < k → s.buffer j ≠ DATA_END_CHAR)
    (hk : k + 1 ≤ DATA_LENGTH) :
    SPI_readAll s = some (true, swapResult s k) ∧
    (∀ i, i < k → (swapResult s k).data i = s.buffer i) ∧
    (∀ i, k ≤ i → i < s.receivedBytes → (swapResult s k).data i = 0) ∧
    (∀ i, k ≤ i → s.receivedBytes ≤ i → (swapResult s k).data i = s.data i) ∧
    (∀ i, i < s.receivedBytes → (swapResult s k).buffer i = 0) ∧
    (∀ i, s.receivedBytes ≤ i → (swapResult s k).buffer i = s.buffer i) ∧
    (swapResult s k).dataReceived = false ∧ (swapResult s k).receivedBytes = 0 := by
  have hcopy := copyFrom_scan k (flushData s) 0 DATA_LENGTH
    (by intro j hj
        show s.buffer (0 + j) ≠ DATA_END_CHAR
        rw [Nat.zero_add]
        exact hpre j hj)
    (by show s.buffer (0 + k) = DATA_END_CHAR
        rwa [Nat.zero_add])
    hk
  refine ⟨?_, ?_, ?_, ?_, ?_, ?_, rfl, rfl⟩
  · have hswap : finishSwap { flushData s with
        data := fun j => if 0 ≤ j ∧ j < 0 + k then (flushData s).buffer j
                         else (flushData s).data j } = swapResult s k := by
      refine SpiState.ext rfl ?_ rfl rfl rfl rfl
      funext j
      show (if 0 ≤ j ∧ j < 0 + k then s.buffer j
            else if j < s.receivedBytes then 0 else s.data j) =
           (if j < k then s.buffer j else if j < s.receivedBytes then 0 else s.data j)
      by_cases hj : j < k
      · rw [if_pos (by omega), if_pos hj]
      · rw [if_neg (by omega), if_neg hj]
    show SPI_readAll s = some (true, swapResult s k)
    rw [SPI_readAll.eq_def, h]
    simp only [if_true]
    rw [hcopy]
    exact congrArg (fun x => some (true, x)) hswap
  · intro i hi
    show (if i < k then s.buffer i else if i < s.receivedBytes then 0 else s.data i) =
      s.buffer i
    rw [if_pos hi]
  · intro i hik hirb
    show (if i < k then s.buffer i else if i < s.receivedBytes then 0 else s.data i) = 0
    rw [if_neg (by omega), if_pos hirb]
  · intro i hik hirb
    show (if i < k then s.buffer i else if i < s.receivedBytes then 0 else s.data i) =
      s.data i
    rw [if_neg (by omega), if_neg (by omega)]
  · intro i hi
    show (if i < s.receivedBytes then 0 else s.buffer i) = 0
    rw [if_pos hi]
  · intro i hi
    show (if i < s.receivedBytes then 0 else s.buffer i) = s.buffer i
    rw [if_neg (by omega)]

/-- C2 (amended): when the Ready Flag holds and the first terminator of the
Working Buffer sits at index k (in bounds), a single SPI_readAll call
returns true after zeroing only the first receivedBytes entries of
SPI_data (not all of it), copying Working Buffer entries [0, k) into
SPI_data, zeroing Working Buffer entries [0, receivedBytes), and clearing
the Ready Flag and the Byte Count. -/
theorem readAll_swap_characterization (s : SpiState) (k : Nat)
    (h : s.dataReceived = true)
    (hterm : s.buffer k = DATA_END_CHAR)
    (hpre : ∀ j, j < k → s.buffer j ≠ DATA_END_CHAR)
    (hk : k + 1 ≤ DATA_LENGTH) :
    SPI_readAll s = some (true, swapResult s k) ∧
    (∀ i, i < k → (swapResult s k).data i = s.buffer i) ∧
    (∀ i, k ≤ i → i < s.receivedBytes → (swapResult s k).data i = 0) ∧
    (∀ i, k ≤ i → s.receivedBytes ≤ i → (swapResult s k).data i = s.data i) ∧
    (∀ i, i < s.receivedBytes → (swapResult s k).buffer i = 0) ∧
    (∀ i, s.receivedBytes ≤ i → (swapResult s k).buffer i = s.buffer i) ∧
    (swapResult s k).dataReceived = false ∧ (swapResult s k).receivedBytes = 0 :=
  readAll_swap_spec s k h hterm hpre hk

/-- C2 witness: the swap evaluated on the concrete ready state reached by
framing the one-byte message 65. -/
theorem readAll_swap_characterization_witness :
    SPI_readAll (runISR initState [65, DATA_END_CHAR]) =
      some (true, swapResult (runISR initState [65, DATA_END_CHAR]) 1) :=
  (readAll_swap_characterization (runISR initState [65, DATA_END_CHAR]) 1
    (by decide) (by decide) (by decide) (by decide)).1

/-- C1: delivering a terminator-free byte sequence S with length below
Capacity, followed by one terminator, to the ISR from the initial state and
then calling SPI_readAll yields true with SPI_data holding exactly S (the
bytes of S at [0, len S), zero elsewhere); an immediately following second
call yields false and changes nothing. -/
theorem frame_message_readAll_roundtrip (S : List Nat)
    (hlen : S.length < DATA_LENGTH)
    (hbyte : ∀ b ∈ S, b < 256)
    (hnt : ∀ b ∈ S, b ≠ DATA_END_CHAR) :
    SPI_readAll (runISR initState (S ++ [DATA_END_CHAR])) =
      some (true, swapResult (runISR initState (S ++ [DATA_END_CHAR])) S.length) ∧
    (∀ i, i < S.length →
      (swapResult (runISR initState (S ++ [DATA_END_CHAR])) S.length).data i = S.getD i 0) ∧
    (∀ i, S.length ≤ i →
      (swapResult (runISR initState (S ++ [DATA_END_CHAR])) S.length).data i = 0) ∧
    SPI_readAll (swapResult (runISR initState (S ++ [DATA_END_CHAR])) S.length) =
      some (false, swapResult (runISR initState (S ++ [DATA_END_CHAR])) S.length) := by
  obtain ⟨h1, h2, h3, h4, h5⟩ := runISR_no_term S hnt initState
  have hA0 : (runISR initState S).dataIndex = S.length := by
    rw [h1]; show 0 + S.length = S.length; omega
  have hA1 : (runISR initState S).receivedBytes = S.length := by
    rw [h2]; show 0 + S.length = S.length; omega
  have hAbuf : ∀ i, i < S.length → (runISR initState S).buffer i = S.getD i 0 := by
    intro i hi
    rw [h5 i, if_pos (by show 0 ≤ i ∧ i < 0 + S.length; omega)]
    rfl
  have hT : runISR initState (S ++ [DATA_END_CHAR]) = isrStep (runISR initState S) DATA_END_CHAR := by
    simp [runISR]
  have hTrecv : (runISR initState (S ++ [DATA_END_CHAR])).dataReceived = true := by
    rw [hT]; simp [isrStep]
  have hTrb : (runISR initState (S ++ [DATA_END_CHAR])).receivedBytes = S.length := by
    rw [hT]
    have : (isrStep (runISR initState S) DATA_END_CHAR).receivedBytes =
        (runISR initState S).receivedBytes := by simp [isrStep]
    rw [this, hA1]
  have hTbuf : ∀ i, (runISR initState (S ++ [DATA_END_CHAR])).buffer i =
      if i = S.length then DATA_END_CHAR else (runISR initState S).buffer i := by
    intro i
    rw [hT, isrStep_buffer, hA0]
  have hTterm : (runISR initState (S ++ [DATA_END_CHAR])).buffer S.length = DATA_END_CHAR := by
    rw [hTbuf, if_pos rfl]
  have hTpre : ∀ j, j < S.length →
      (runISR initState (S ++ [DATA_END_CHAR])).buffer j ≠ DATA_END_CHAR := by
    intro j hj
    rw [hTbuf, if_neg (by omega), hAbuf j hj]
    have hmem : S.getD j 0 ∈ S := by
      rw [List.getD_eq_getElem S 0 hj]
      exact List.getElem_mem hj
    exact hnt _ hmem
  have hTdata : ∀ i, (runISR initState (S ++ [DATA_END_CHAR])).data i = 0 := by
    intro i
    rw [hT, isrStep_data, h4]
    rfl
  obtain ⟨hc1, hc2, hc3, hc4, _, _, hc7, _⟩ :=
    readAll_swap_spec (runISR initState (S ++ [DATA_END_CHAR])) S.length
      hTrecv hTterm hTpre (by omega)
  refine ⟨hc1, ?_, ?_, ?_⟩
  · intro i hi
    rw [hc2 i hi, hTbuf, if_neg (by omega), hAbuf i hi]
  · intro i hi
    by_cases hrb : i < (runISR initState (S ++ [DATA_END_CHAR])).receivedBytes
    · exact hc3 i hi hrb
    · rw [hc4 i hi (by omega), hTdata i]
  · rw [SPI_readAll.eq_def, hc7]
    simp

/-- C1 witness: the round trip evaluated on the concrete message TOGGLE
(bytes 84, 79, 71, 71, 76, 69) followed by the terminator. -/
theorem frame_message_readAll_roundtrip_witness :
    SPI_readAll (runISR initState [84, 79, 71, 71, 76, 69, DATA_END_CHAR]) =
      some (true, swapResult (runISR initState [84, 79, 71, 71, 76, 69, DATA_END_CHAR]) 6) ∧
    (swapResult (runISR initState [84, 79, 71, 71, 76, 69, DATA_END_CHAR]) 6).data 0 = 84 ∧
    (swapResult (runISR initState [84, 79, 71, 71, 76, 69, DATA_END_CHAR]) 6).data 5 = 69 ∧
    (swapResult (runISR initState [84, 79, 71, 71, 76, 69, DATA_END_CHAR]) 6).data 6 = 0 := by
  obtain ⟨hr1, hr2, hr3, _⟩ :=
    frame_message_readAll_roundtrip [84, 79, 71, 71, 76, 69]
      (by decide) (by decide) (by decide)
  exact ⟨hr1, by simpa using hr2 0 (by decide), by simpa using hr2 5 (by decide),
    hr3 6 (by decide)⟩

theorem actStep_recv_count (s : SpiState) (b : Nat) :
    (isrStep s b).receivedBytes =
      (if b = DATA_END_CHAR then s.receivedBytes else s.receivedBytes + 1) ∧
    (isrStep s b).dataReceived =
      (if b = DATA_END_CHAR then true else s.dataReceived) := by
  by_cases hb : b = DATA_END_CHAR <;> simp [isrStep, hb]

theorem runActsFrom_count (acts : List SpiAction) :
    ∀ (s : SpiState) (p : Nat × Bool),
      s.receivedBytes = p.1 → s.dataReceived = p.2 →
      (runActsFrom s acts).elim True
        (fun s2 => s2.receivedBytes = (acts.foldl specStep p).1 ∧
                   s2.dataReceived = (acts.foldl specStep p).2) := by
  induction acts with
  | nil => intro s p hc hr; exact ⟨hc, hr⟩
  | cons a rest ih =>
    intro s p hc hr
    obtain ⟨c, r⟩ := p
    cases a with
    | recv b =>
      show (runActsFrom (isrStep s b) rest).elim True _
      obtain ⟨hrb, hdr⟩ := actStep_recv_count s b
      by_cases hb : b = DATA_END_CHAR
      · have h1 : (isrStep s b).receivedBytes = (specStep (c, r) (SpiAction.recv b)).1 := by
          rw [hrb, if_pos hb]
          simp [specStep, hb, hc]
        have h2 : (isrStep s b).dataReceived = (specStep (c, r) (SpiAction.recv b)).2 := by
          rw [hdr, if_pos hb]
          simp [specStep, hb]
        exact ih (isrStep s b) (specStep (c, r) (SpiAction.recv b)) h1 h2
      · have h1 : (isrStep s b).receivedBytes = (specStep (c, r) (SpiAction.recv b)).1 := by
          rw [hrb, if_neg hb]
          simp [specStep, hb, hc]
        have h2 : (isrStep s b).dataReceived = (specStep (c, r) (SpiAction.recv b)).2 := by
          rw [hdr, if_neg hb]
          simp [specStep, hb, hr]
        exact ih (isrStep s b) (specStep (c, r) (SpiAction.recv b)) h1 h2
    | poll =>
      by_cases hready : s.dataReceived = true
      · have hr' : s.dataReceived = r := hr
        have hr2 : r = true := by rw [← hr']; exact hready
        rcases hcf : copyFrom DATA_LENGTH (flushData s) 0 with _ | cs
        · have hnone : runActsFrom s (SpiAction.poll :: rest) = none := by
            simp [runActsFrom, actStep, SPI_readAll, hready, hcf]
          rw [hnone]
          exact trivial
        · have hstep : runActsFrom s (SpiAction.poll :: rest) =
              runActsFrom (finishSwap cs) rest := by
            simp [runActsFrom, actStep, SPI_readAll, hready, hcf]
          rw [hstep]
          have h1 : (finishSwap cs).receivedBytes = (specStep (c, r) SpiAction.poll).1 := by
            simp [finishSwap, specStep, hr2]
          have h2 : (finishSwap cs).dataReceived = (specStep (c, r) SpiAction.poll).2 := by
            simp [finishSwap, specStep, hr2]
          exact ih (finishSwap cs) (specStep (c, r) SpiAction.poll) h1 h2
      · have hfalse : s.dataReceived = false := by
          cases hd : s.dataReceived
          · rfl
          · exact absurd hd hready
        have hr' : s.dataReceived = r := hr
        have hr2 : r = false := by rw [← hr']; exact hfalse
        have hstep : runActsFrom s (SpiAction.poll :: rest) = runActsFrom s rest := by
          simp [runActsFrom, actStep, SPI_readAll, hfalse]
        rw [hstep]
        have h1 : s.receivedBytes = (specStep (c, r) SpiAction.poll).1 := by
          simp [specStep, hr2, hc]
        have h2 : s.dataReceived = (specStep (c, r) SpiAction.poll).2 := by
          simp [specStep, hr2, hfalse]
        exact ih s (specStep (c, r) SpiAction.poll) h1 h2

/-- C8 counterexample: the claim says receivedBytes always equals the number
of non-terminator bytes of the current (or just-completed) message.  Deliver
byte 65, a terminator, then byte 66 without any SPI_readAll in between: the
current message holds one byte (66) and the just-completed message held one
byte (65), but receivedBytes has accumulated to 2. -/
theorem receivedBytes_accumulates_counterexample :
    ((runActs [SpiAction.recv 65, .recv DATA_END_CHAR, .recv 66]).map
        (fun s => s.receivedBytes)) = some 2 ∧
    (bytesSinceLastTerminator [65, DATA_END_CHAR, 66]).length = 1 ∧
    (2 : Nat) ≠ 1 := by
  decide

/-- C8 (amended): under every interleaving of ISR invocations and
SPI_readAll calls (that stays clear of the undefined terminator-less scan),
receivedBytes equals the number of non-terminator bytes received since the
last successful swap (not per message), and a successful swap resets it to
zero; dataReceived likewise matches the abstract mailbox flag. -/
theorem receivedBytes_since_swap (acts : List SpiAction) :
    (runActs acts).elim True
      (fun s => s.receivedBytes = (specRun acts).1 ∧
                s.dataReceived = (specRun acts).2) :=
  runActsFrom_count acts initState (0, false) rfl rfl

/-- C8 witness: the invariant evaluated on a concrete interleaving: frame
byte 65, swap, then one more byte. -/
theorem receivedBytes_since_swap_witness :
    (runActs [SpiAction.recv 65, .recv DATA_END_CHAR, .poll, .recv 66]).elim True
      (fun s => s.receivedBytes =
          (specRun [SpiAction.recv 65, .recv DATA_END_CHAR, .poll, .recv 66]).1 ∧
        s.dataReceived =
          (specRun [SpiAction.recv 65, .recv DATA_END_CHAR, .poll, .recv 66]).2) :=
  receivedBytes_since_swap [SpiAction.recv 65, .recv DATA_END_CHAR, .poll, .recv 66]

theorem copyFrom_step (fuel : Nat) (s : SpiState) (i : Nat)
    (h : s.buffer i ≠ DATA_END_CHAR) :
    copyFrom (fuel + 1) s i = copyFrom fuel (storeData s i (s.buffer i)) (i + 1) := by
  simp only [copyFrom]
  rw [if_neg h]

/-- The interleaved execution of C9 composes the same micro-operations as
the atomic SPI_readAll: with no ISR in between, resuming the copy loop at
index 1 with one unit of fuel spent reproduces SPI_readAll exactly. -/
theorem torn_decomposition_sound :
    SPI_readAll tornStart =
      (copyFrom 50 tornMid 1).map (fun s2 => (true, finishSwap s2)) := by
  have hbuf : (flushData tornStart).buffer 0 ≠ DATA_END_CHAR := by decide
  have h1 : copyFrom DATA_LENGTH (flushData tornStart) 0 = copyFrom 50 tornMid 1 :=
    copyFrom_step 50 (flushData tornStart) 0 hbuf
  have hready : tornStart.dataReceived = true := by decide
  rw [SPI_readAll.eq_def, hready]
  simp only [if_true]
  rw [h1]
  rcases copyFrom 50 tornMid 1 with _ | s2 <;> rfl

/-- C9: the claim says the buffer swap of SPI_readAll is atomic with respect
to the receive interrupt.  SPI_readAll (cpp lines 134-161) never disables
the interrupt source (no SPCR or SREG manipulation), so the ISR can fire
between any two of its steps.  Concretely: with the message AB framed, the
atomic call returns SPI_data = [65, 66]; if the ISR delivers the message CD
plus terminator right after the first copy-loop iteration, the resumed call
ends with SPI_data = [65, 68] — a torn result matching neither message —
and the second message, together with its ready event and byte count, is
destroyed (buffer zeroed, flag false, counter zero). -/
theorem readAll_unprotected_torn_read :
    ((SPI_readAll tornStart).map (fun p => (p.2.data 0, p.2.data 1))) =
      some (65, 66) ∧
    (tornFinal.map (fun s => (s.data 0, s.data 1))) = some (65, 68) ∧
    (tornFinal.map (fun s => (s.dataReceived, s.receivedBytes, s.buffer 0, s.buffer 1))) =
      some (false, 0, 0, 0) ∧
    ((65, 68) : Nat × Nat) ≠ (65, 66) ∧ ((65, 68) : Nat × Nat) ≠ (67, 68) := by
  decide

theorem shiftLeft_lor_distrib (a b n : Nat) :
    (a ||| b) <<< n = (a <<< n) ||| (b <<< n) := by
  apply Nat.eq_of_testBit_eq
  intro i
  simp [Nat.testBit_shiftLeft, Nat.testBit_lor, Bool.and_or_distrib_left]

theorem hexFold_general (l : List Nat) :
    ∀ acc : Nat, (∀ b ∈ l, b < 256) → 8 * l.length ≤ 64 →
      acc < 2 ^ (64 - 8 * l.length) →
      List.foldl hexCombineStep acc l = (acc <<< (8 * l.length)) ||| specBigEndianFold l := by
  induction l with
  | nil =>
    intro acc _ _ _
    simp [specBigEndianFold]
  | cons b rest ih =>
    intro acc hb hlen hacc
    have hblt : b < 256 := hb b (List.mem_cons_self b rest)
    simp only [List.length_cons] at hlen hacc
    have hnext : (acc <<< 8) ||| b < 2 ^ (64 - 8 * rest.length) := by
      apply Nat.or_lt_two_pow
      · rw [Nat.shiftLeft_eq]
        have e1 : (2:Nat) ^ (64 - 8 * rest.length) =
            2 ^ (64 - 8 * (rest.length + 1)) * 2 ^ 8 := by
          rw [← pow_add]
          congr 1
          omega
        rw [e1]
        exact mul_lt_mul_of_pos_right hacc (by positivity)
      · calc b < 256 := hblt
          _ ≤ 2 ^ (64 - 8 * rest.length) := by
            rw [show (256:Nat) = 2 ^ 8 from by norm_num]
            exact Nat.pow_le_pow_right (by norm_num) (by omega)
    have hstep : hexCombineStep acc b = (acc <<< 8) ||| b :=
      Nat.mod_eq_of_lt (lt_of_lt_of_le hnext (Nat.pow_le_pow_right (by norm_num) (by omega)))
    have hrest := ih ((acc <<< 8) ||| b)
      (fun x hx => hb x (List.mem_cons_of_mem b hx)) (by omega) hnext
    show List.foldl hexCombineStep (hexCombineStep acc b) rest = _
    rw [hstep, hrest, shiftLeft_lor_distrib, Nat.shiftLeft_shiftLeft]
    simp only [specBigEndianFold, List.length_cons]
    rw [show 8 * (rest.length + 1) = 8 + 8 * rest.length from by ring]
    rw [Nat.or_assoc]

theorem SPI_transmitHex_payload_length (n v : Nat) :
    (SPI_transmitHex_payload n v).length = n := by
  simp [SPI_transmitHex_payload]

theorem SPI_transmitHex_payload_lt (n v : Nat) :
    ∀ b ∈ SPI_transmitHex_payload n v, b < 256 := by
  intro b hb
  simp only [SPI_transmitHex_payload, List.mem_map, List.mem_reverse,
    List.mem_range] at hb
  obtain ⟨i, _, rfl⟩ := hb
  have h1 : (v >>> (i * 8)) &&& 255 ≤ 255 := Nat.and_le_right
  omega

theorem SPI_transmitHex_payload_succ (n v : Nat) :
    SPI_transmitHex_payload (n + 1) v =
      ((v >>> (n * 8)) &&& 255) :: SPI_transmitHex_payload n v := by
  simp [SPI_transmitHex_payload, List.range_succ]

theorem payload_mod (n v : Nat) :
    SPI_transmitHex_payload n (v % 2 ^ (8 * n)) = SPI_transmitHex_payload n v := by
  unfold SPI_transmitHex_payload
  apply List.map_congr_left
  intro i hi
  have hin : i < n := by
    rw [List.mem_reverse, List.mem_range] at hi
    exact hi
  apply Nat.eq_of_testBit_eq
  intro j
  simp only [Nat.testBit_and, Nat.testBit_shiftRight, Nat.testBit_mod_two_pow]
  by_cases hj : j < 8
  · have hlt : i * 8 + j < 8 * n := by omega
    simp [hlt]
  · have h255 : Nat.testBit 255 j = false := by
      rw [show (255:Nat) = 2 ^ 8 - 1 from by norm_num, Nat.testBit_two_pow_sub_one]
      simp [hj]
    simp [h255]

theorem byte_shift_recompose (x m : Nat) (hx : x < 2 ^ (m + 8)) :
    (((x >>> m) &&& 255) <<< m) ||| (x % 2 ^ m) = x := by
  have hdiv : x >>> m = x / 2 ^ m := Nat.shiftRight_eq_div_pow x m
  have hlt : x / 2 ^ m < 256 := by
    rw [Nat.div_lt_iff_lt_mul (Nat.two_pow_pos m)]
    calc x < 2 ^ (m + 8) := hx
      _ = 256 * 2 ^ m := by rw [pow_add]; ring
  have hand : (x >>> m) &&& 255 = x >>> m := by
    rw [show (255:Nat) = 2 ^ 8 - 1 from by norm_num]
    exact Nat.and_pow_two_sub_one_of_lt_two_pow (by rw [hdiv]; exact hlt)
  rw [hand, hdiv, Nat.shiftLeft_eq]
  rw [show (x / 2 ^ m) * 2 ^ m = 2 ^ m * (x / 2 ^ m) from by ring]
  rw [← Nat.mul_add_lt_is_or (Nat.mod_lt x (Nat.two_pow_pos m)) (x / 2 ^ m)]
  exact Nat.div_add_mod x (2 ^ m)

theorem specBE_payload (n : Nat) :
    ∀ v, v < 2 ^ (8 * n) → specBigEndianFold (SPI_transmitHex_payload n v) = v := by
  induction n with
  | zero =>
    intro v hv
    have hv0 : v = 0 := by
      have : v < 1 := by simpa using hv
      omega
    subst hv0
    simp [SPI_transmitHex_payload, specBigEndianFold]
  | succ n ih =>
    intro v hv
    rw [SPI_transmitHex_payload_succ, ← payload_mod n v]
    simp only [specBigEndianFold]
    rw [SPI_transmitHex_payload_length]
    rw [ih (v % 2 ^ (8 * n)) (Nat.mod_lt v (Nat.two_pow_pos _))]
    rw [show n * 8 = 8 * n from by ring]
    exact byte_shift_recompose v (8 * n)
      (by rw [show 8 * n + 8 = 8 * (n + 1) from by ring]; exact hv)

/-- C5: hexArrayToUint64_t is the big-endian left fold (for at most 8 bytes,
the documented precondition, each below 256); for every n in 1..8 and value
below 2^(8n), folding the n payload bytes SPI_transmitHex emits for that
value (most significant byte first) gives the value back; and the payload
for byteCount 2 and value 0x1234 followed by the terminator is exactly
[0x12, 0x34, 0x0D]. -/
theorem hexArray_bigEndian_roundtrip :
    (∀ l : List Nat, (∀ b ∈ l, b < 256) → l.length ≤ 8 →
      hexArrayToUint64_t l = specBigEndianFold l) ∧
    (∀ n v : Nat, 1 ≤ n → n ≤ 8 → v < 2 ^ (8 * n) →
      hexArrayToUint64_t (SPI_transmitHex_payload n v) = v) ∧
    SPI_transmitHex_payload 2 0x1234 ++ [DATA_END_CHAR] = [0x12, 0x34, 0x0D] := by
  have hgen : ∀ l : List Nat, (∀ b ∈ l, b < 256) → l.length ≤ 8 →
      hexArrayToUint64_t l = specBigEndianFold l := by
    intro l hb hlen
    unfold hexArrayToUint64_t
    rw [hexFold_general l 0 hb (by omega) (Nat.two_pow_pos _)]
    simp
  have hround : ∀ n v : Nat, 1 ≤ n → n ≤ 8 → v < 2 ^ (8 * n) →
      hexArrayToUint64_t (SPI_transmitHex_payload n v) = v := by
    intro n v _ hn8 hv
    rw [hgen (SPI_transmitHex_payload n v) (SPI_transmitHex_payload_lt n v)
      (by rw [SPI_transmitHex_payload_length]; exact hn8)]
    exact specBE_payload n v hv
  exact ⟨hgen, hround, by decide⟩

/-- C5 witness: the fold law and the round trip evaluated at byteCount 2 and
value 0x1234 (the spec's concrete scenario). -/
theorem hexArray_bigEndian_roundtrip_witness :
    hexArrayToUint64_t [0x12, 0x34] = specBigEndianFold [0x12, 0x34] ∧
    hexArrayToUint64_t (SPI_transmitHex_payload 2 0x1234) = 0x1234 :=
  ⟨hexArray_bigEndian_roundtrip.1 [0x12, 0x34] (by decide) (by decide),
   hexArray_bigEndian_roundtrip.2.1 2 0x1234 (by decide) (by decide) (by decide)⟩

theorem strcmpBytes_antisym (a : List Nat) :
    ∀ b : List Nat, strcmpBytes a b = -strcmpBytes b a := by
  induction a with
  | nil =>
    intro b
    cases b with
    | nil => simp [strcmpBytes]
    | cons x xs =>
      by_cases hx : x = 0 <;> simp [strcmpBytes, hx]
  | cons y ys ih =>
    intro b
    cases b with
    | nil =>
      by_cases hy : y = 0 <;> simp [strcmpBytes, hy]
    | cons x xs =>
      by_cases hxy : y = x
      · subst hxy
        by_cases hy : y = 0
        · simp [strcmpBytes, hy]
        · simp only [strcmpBytes, if_pos rfl, if_neg hy]
          exact ih xs
      · have hyx : x ≠ y := fun h => hxy h.symm
        simp only [strcmpBytes, if_neg hxy, if_neg hyx]
        omega

theorem strcmpBytes_eq_zero_iff (a : List Nat) :
    ∀ b : List Nat, strcmpBytes a b = 0 ↔
      a.takeWhile (fun x => decide (x ≠ 0)) = b.takeWhile (fun x => decide (x ≠ 0)) := by
  induction a with
  | nil =>
    intro b
    cases b with
    | nil => simp [strcmpBytes]
    | cons x xs =>
      by_cases hx : x = 0
      · simp [strcmpBytes, hx]
      · simp only [strcmpBytes, if_neg hx, List.takeWhile_nil, List.takeWhile_cons]
        constructor
        · intro h
          exfalso
          omega
        · intro h
          rw [if_pos (by simpa using hx)] at h
          exact absurd h (by simp)
  | cons y ys ih =>
    intro b
    cases b with
    | nil =>
      by_cases hy : y = 0
      · simp [strcmpBytes, hy]
      · simp only [strcmpBytes, if_neg hy, List.takeWhile_nil, List.takeWhile_cons]
        constructor
        · intro h
          exfalso
          omega
        · intro h
          rw [if_pos (by simpa using hy)] at h
          exact absurd h (by simp)
    | cons x xs =>
      by_cases hxy : y = x
      · subst hxy
        by_cases hy : y = 0
        · simp [strcmpBytes, hy]
        · simp only [strcmpBytes, if_pos rfl, if_neg hy, List.takeWhile_cons,
            if_pos (show (decide (y ≠ 0)) = true from by simpa using hy), if_true]
          rw [ih xs]
          constructor
          · intro h
            rw [h]
          · intro h
            injection h
      · have hx0 : (y = 0 ∧ x ≠ 0) ∨ (y ≠ 0 ∧ x = 0) ∨ (y ≠ 0 ∧ x ≠ 0) := by
          rcases Nat.eq_zero_or_pos y with hy | hy
          · rcases Nat.eq_zero_or_pos x with hx | hx
            · exfalso; omega
            · exact Or.inl ⟨hy, by omega⟩
          · rcases Nat.eq_zero_or_pos x with hx | hx
            · exact Or.inr (Or.inl ⟨by omega, hx⟩)
            · exact Or.inr (Or.inr ⟨by omega, by omega⟩)
        simp only [strcmpBytes, if_neg hxy, List.takeWhile_cons]
        rcases hx0 with ⟨hy, hx⟩ | ⟨hy, hx⟩ | ⟨hy, hx⟩
        · rw [if_neg (by simpa using hy), if_pos (by simpa using hx)]
          constructor
          · intro h; exfalso; omega
          · intro h; exact absurd h (by simp)
        · rw [if_pos (by simpa using hy), if_neg (by simpa using hx)]
          constructor
          · intro h; exfalso; omega
          · intro h; exact absurd h (by simp)
        · rw [if_pos (by simpa using hy), if_pos (by simpa using hx)]
          constructor
          · intro h; exfalso; omega
          · intro h
            injection h with h1 _
            exact absurd h1 hxy

/-- C6: SPI_strcmp is antisymmetric (compare(a,b) = -compare(b,a)) and
returns zero exactly when the two strings have identical bytes up to their
respective NUL terminators; in particular comparing the bytes
[0x41, 0x42, 0x00] against the string AB gives 0.  The libc strcmp that
SPI_strcmp delegates to is modelled by its standard contract (difference of
the first differing bytes). -/
theorem strcmp_antisym_zero_iff :
    (∀ a b : List Nat, SPI_strcmp a b = -SPI_strcmp b a) ∧
    (∀ a b : List Nat, SPI_strcmp a b = 0 ↔
      a.takeWhile (fun x => decide (x ≠ 0)) = b.takeWhile (fun x => decide (x ≠ 0))) ∧
    SPI_strcmp [0x41, 0x42, 0x00] [65, 66] = 0 :=
  ⟨fun a b => strcmpBytes_antisym a b,
   fun a b => strcmpBytes_eq_zero_iff a b,
   by decide⟩

/-- C6 witness: antisymmetry and the zero test evaluated at concrete
strings. -/
theorem strcmp_antisym_zero_iff_witness :
    SPI_strcmp [65] [66] = -SPI_strcmp [66] [65] ∧
    (SPI_strcmp [65, 66] [65, 66, 0] = 0 ↔
      ([65, 66] : List Nat).takeWhile (fun x => decide (x ≠ 0)) =
        ([65, 66, 0] : List Nat).takeWhile (fun x => decide (x ≠ 0))) :=
  ⟨strcmp_antisym_zero_iff.1 [65] [66],
   strcmp_antisym_zero_iff.2.1 [65, 66] [65, 66, 0]⟩

theorem one_shl_mod (bit : Nat) (hbit : bit < 8) : (1 <<< bit) % 256 = 2 ^ bit := by
  rw [Nat.one_shiftLeft]
  apply Nat.mod_eq_of_lt
  calc 2 ^ bit ≤ 2 ^ 7 := Nat.pow_le_pow_right (by norm_num) (by omega)
    _ < 256 := by norm_num

theorem ssAssert_default (port bit : Nat) :
    ssAssertValue port bit DEFAULT_SS_CONTROL = pullLowVal port bit := by
  simp [ssAssertValue, DEFAULT_SS_CONTROL, INVERTED_SS_CONTROL]

theorem ssAssert_inverted (port bit : Nat) :
    ssAssertValue port bit INVERTED_SS_CONTROL = pullHighVal port bit := by
  simp [ssAssertValue, DEFAULT_SS_CONTROL, INVERTED_SS_CONTROL]

theorem ssDeassert_default (port bit : Nat) :
    ssDeassertValue port bit DEFAULT_SS_CONTROL = pullHighVal port bit := by
  simp [ssDeassertValue, DEFAULT_SS_CONTROL, INVERTED_SS_CONTROL]

theorem ssDeassert_inverted (port bit : Nat) :
    ssDeassertValue port bit INVERTED_SS_CONTROL = pullLowVal port bit := by
  simp [ssDeassertValue, DEFAULT_SS_CONTROL, INVERTED_SS_CONTROL]

theorem pullLowVal_testBit_self (port bit : Nat) (hbit : bit < 8) :
    (pullLowVal port bit).testBit bit = false := by
  unfold pullLowVal
  rw [one_shl_mod bit hbit]
  simp only [Nat.testBit_and, Nat.testBit_xor]
  rw [show (255:Nat) = 2 ^ 8 - 1 from by norm_num, Nat.testBit_two_pow_sub_one,
    Nat.testBit_two_pow_self]
  simp [hbit]

theorem pullHighVal_testBit_self (port bit : Nat) (hport : port < 256) (hbit : bit < 8) :
    (pullHighVal port bit).testBit bit = true := by
  unfold pullHighVal
  rw [one_shl_mod bit hbit]
  have hlt : port ||| 2 ^ bit < 256 := by
    have h1 : port < 2 ^ 8 := by simpa using hport
    have h2 : 2 ^ bit < 2 ^ 8 := by
      calc (2:Nat) ^ bit ≤ 2 ^ 7 := Nat.pow_le_pow_right (by norm_num) (by omega)
        _ < 2 ^ 8 := by norm_num
    simpa using Nat.or_lt_two_pow h1 h2
  rw [Nat.mod_eq_of_lt hlt]
  simp [Nat.testBit_lor, Nat.testBit_two_pow_self]

theorem pullLowVal_testBit_other (port bit j : Nat) (hbit : bit < 8) (hj : j < 8)
    (hne : j ≠ bit) :
    (pullLowVal port bit).testBit j = port.testBit j := by
  unfold pullLowVal
  rw [one_shl_mod bit hbit]
  simp only [Nat.testBit_and, Nat.testBit_xor]
  rw [show (255:Nat) = 2 ^ 8 - 1 from by norm_num, Nat.testBit_two_pow_sub_one,
    Nat.testBit_two_pow_of_ne (fun h => hne h.symm)]
  simp [hj]

theorem pullHighVal_testBit_other (port bit j : Nat) (hport : port < 256) (hbit : bit < 8)
    (hne : j ≠ bit) :
    (pullHighVal port bit).testBit j = port.testBit j := by
  unfold pullHighVal
  rw [one_shl_mod bit hbit]
  have hlt : port ||| 2 ^ bit < 256 := by
    have h1 : port < 2 ^ 8 := by simpa using hport
    have h2 : 2 ^ bit < 2 ^ 8 := by
      calc (2:Nat) ^ bit ≤ 2 ^ 7 := Nat.pow_le_pow_right (by norm_num) (by omega)
        _ < 2 ^ 8 := by norm_num
    simpa using Nat.or_lt_two_pow h1 h2
  rw [Nat.mod_eq_of_lt hlt]
  simp [Nat.testBit_lor, Nat.testBit_two_pow_of_ne (fun h => hne h.symm)]

/-- C7: for SSmode DEFAULT_SS_CONTROL or INVERTED_SS_CONTROL, each of the
four chip-select-guarded operations writes the SS port exactly once before
its transfers and exactly once after them, with no port write in between;
the assert write drives the SS bit low under DEFAULT and high under
INVERTED, and the de-assert write drives it to the opposite level. -/
theorem ss_guard_assert_deassert (port bit m : Nat)
    (hport : port < 256) (hbit : bit < 8)
    (hm : m = DEFAULT_SS_CONTROL ∨ m = INVERTED_SS_CONTROL)
    (d : Nat) (ds : List Nat) (numBytes hexNumber : Nat) :
    (SPI_transmitUint8_t_trace port bit m d =
      SpiEvent.portWrite (ssAssertValue port bit m) ::
        ([SpiEvent.spiByte d, SpiEvent.spiByte DATA_END_CHAR] ++
         [SpiEvent.portWrite (ssDeassertValue port bit m)])) ∧
    (SPI_transmitString_trace port bit m ds =
      SpiEvent.portWrite (ssAssertValue port bit m) ::
        (((ds.takeWhile (fun c => decide (c ≠ 0))).map SpiEvent.spiByte ++
          [SpiEvent.spiByte DATA_END_CHAR]) ++
         [SpiEvent.portWrite (ssDeassertValue port bit m)])) ∧
    (SPI_receiveUint8_t_trace port bit m =
      SpiEvent.portWrite (ssAssertValue port bit m) ::
        ([SpiEvent.spiReadByte] ++ [SpiEvent.portWrite (ssDeassertValue port bit m)])) ∧
    (SPI_transmitHex_trace port bit m numBytes hexNumber =
      SpiEvent.portWrite (ssAssertValue port bit m) ::
        (((SPI_transmitHex_payload numBytes hexNumber).map SpiEvent.spiByte ++
          [SpiEvent.spiByte DATA_END_CHAR]) ++
         [SpiEvent.portWrite (ssDeassertValue port bit m)])) ∧
    (∀ v, SpiEvent.portWrite v ∉
      (ds.takeWhile (fun c => decide (c ≠ 0))).map SpiEvent.spiByte ++
        [SpiEvent.spiByte DATA_END_CHAR]) ∧
    (∀ v, SpiEvent.portWrite v ∉
      (SPI_transmitHex_payload numBytes hexNumber).map SpiEvent.spiByte ++
        [SpiEvent.spiByte DATA_END_CHAR]) ∧
    (ssAssertValue port bit m).testBit bit = decide (m = INVERTED_SS_CONTROL) ∧
    (ssDeassertValue port bit m).testBit bit = decide (m = DEFAULT_SS_CONTROL) := by
  refine ⟨by simp [SPI_transmitUint8_t_trace], by simp [SPI_transmitString_trace],
    by simp [SPI_receiveUint8_t_trace], by simp [SPI_transmitHex_trace], ?_, ?_, ?_, ?_⟩
  · intro v
    simp [List.mem_append, List.mem_map]
  · intro v
    simp [List.mem_append, List.mem_map]
  · rcases hm with rfl | rfl
    · rw [ssAssert_default, pullLowVal_testBit_self port bit hbit]
      decide
    · rw [ssAssert_inverted, pullHighVal_testBit_self port bit hport hbit]
      decide
  · rcases hm with rfl | rfl
    · rw [ssDeassert_default, pullHighVal_testBit_self port bit hport hbit]
      decide
    · rw [ssDeassert_inverted, pullLowVal_testBit_self port bit hbit]
      decide

/-- C7 witness: the SS-bit levels evaluated at port 170, bit 2, DEFAULT
polarity. -/
theorem ss_guard_assert_deassert_witness :
    (ssAssertValue 170 2 DEFAULT_SS_CONTROL).testBit 2 =
      decide (DEFAULT_SS_CONTROL = INVERTED_SS_CONTROL) ∧
    (ssDeassertValue 170 2 DEFAULT_SS_CONTROL).testBit 2 =
      decide (DEFAULT_SS_CONTROL = DEFAULT_SS_CONTROL) :=
  ⟨(ss_guard_assert_deassert 170 2 DEFAULT_SS_CONTROL (by decide) (by decide)
      (Or.inl rfl) 7 [72] 1 90).2.2.2.2.2.2.1,
   (ss_guard_assert_deassert 170 2 DEFAULT_SS_CONTROL (by decide) (by decide)
      (Or.inl rfl) 7 [72] 1 90).2.2.2.2.2.2.2⟩

/-- C10: the assert and de-assert writes preserve every port bit other than
the selected SS bit when SSmode is DEFAULT_SS_CONTROL or
INVERTED_SS_CONTROL; for every other SSmode value both writes store 0x00,
clearing the whole port register (cpp lines 207 and 212: both comparison
products are zero). -/
theorem ss_mode_port_frame_effect (port bit : Nat) (hport : port < 256) (hbit : bit < 8) :
    (∀ m, (m = DEFAULT_SS_CONTROL ∨ m = INVERTED_SS_CONTROL) →
      ∀ j, j < 8 → j ≠ bit →
        (ssAssertValue port bit m).testBit j = port.testBit j ∧
        (ssDeassertValue port bit m).testBit j = port.testBit j) ∧
    (∀ m, m ≠ DEFAULT_SS_CONTROL → m ≠ INVERTED_SS_CONTROL →
      ssAssertValue port bit m = 0 ∧ ssDeassertValue port bit m = 0 ∧
      SPI_transmitUint8_t_trace port bit m 0 =
        [SpiEvent.portWrite 0, SpiEvent.spiByte 0, SpiEvent.spiByte DATA_END_CHAR,
         SpiEvent.portWrite 0] ∧
      SPI_transmitHex_trace port bit m 2 0x1234 =
        SpiEvent.portWrite 0 ::
          ((SPI_transmitHex_payload 2 0x1234).map SpiEvent.spiByte ++
           [SpiEvent.spiByte DATA_END_CHAR, SpiEvent.portWrite 0])) := by
  constructor
  · intro m hm j hj hne
    rcases hm with rfl | rfl
    · rw [ssAssert_default, ssDeassert_default]
      exact ⟨pullLowVal_testBit_other port bit j hbit hj hne,
             pullHighVal_testBit_other port bit j hport hbit hne⟩
    · rw [ssAssert_inverted, ssDeassert_inverted]
      exact ⟨pullHighVal_testBit_other port bit j hport hbit hne,
             pullLowVal_testBit_other port bit j hbit hj hne⟩
  · intro m h1 h0
    have ha : ssAssertValue port bit m = 0 := by
      simp [ssAssertValue, h1, h0]
    have hd : ssDeassertValue port bit m = 0 := by
      simp [ssDeassertValue, h1, h0]
    exact ⟨ha, hd, by simp [SPI_transmitUint8_t_trace, ha, hd],
      by simp [SPI_transmitHex_trace, ha, hd]⟩

/-- C10 witness: frame preservation at port 170 (bit 0 untouched by bit 2
selects) and the whole-port clear at the illegal SSmode value 5. -/
theorem ss_mode_port_frame_effect_witness :
    ((ssAssertValue 170 2 DEFAULT_SS_CONTROL).testBit 0 = (170 : Nat).testBit 0 ∧
     (ssDeassertValue 170 2 DEFAULT_SS_CONTROL).testBit 0 = (170 : Nat).testBit 0) ∧
    (ssAssertValue 170 2 5 = 0 ∧ ssDeassertValue 170 2 5 = 0) := by
  refine ⟨(ss_mode_port_frame_effect 170 2 (by decide) (by decide)).1
      DEFAULT_SS_CONTROL (Or.inl rfl) 0 (by decide) (by decide), ?_⟩
  have h := (ss_mode_port_frame_effect 170 2 (by decide) (by decide)).2 5
    (by decide) (by decide)
  exact ⟨h.1, h.2.1⟩
